import Mathlib

/-!
Shallow embedding of the decompression engine of `ouch`
(`src/commands/decompress.rs`) and proofs about its control flow.

Modelling conventions:

* The `formats : Vec<Extension>` argument of `decompress_file` is modelled as a
  `List Extension`.  As in the source, each `Extension` carries a list of
  `CompressionFormat`s, the flattened list is in decompression-dispatch order:
  its head is the innermost (terminal, first-applied) format and its last
  element is the outermost (last-applied) layer.  The spec's "Format
  Descriptor" (outermost first, terminal last) is the reverse of this list.
* Effectful collaborators (file open, decoder construction, `io::copy`,
  archive extractors, `fs::create_dir`, temp-file creation, the interactive
  answers) are oracles packed in an `Env` record; each run produces an
  `Outcome` together with a trace of `Event`s recording every observable
  side effect in program order.
* Rust panics (`assert!`, `unreachable!()`, `Vec::remove` on an empty vector)
  are modelled as the distinguished `Outcome.panicked` results.
* The `#[cfg(feature = "unrar")]` conditional compilation switch is the
  `Env.unrarFeature` boolean.
-/

namespace OuchDecompress

/-- CompressionFormat from src/extension.rs as used by decompress.rs:
six layerable stream formats and four terminal archive formats. -/
inductive CompressionFormat
  | Gzip | Bzip | Lz4 | Lzma | Snappy | Zstd
  | Tar | Zip | Rar | SevenZip
deriving DecidableEq

/-- Layerable (pure byte-stream) formats, the family handled by
`chain_reader_decoder` without hitting the `unreachable!()` arm. -/
def CompressionFormat.isLayerable : CompressionFormat → Bool
  | .Gzip | .Bzip | .Lz4 | .Lzma | .Snappy | .Zstd => true
  | .Tar | .Zip | .Rar | .SevenZip => false

/-- Extension: one parsed file-name extension carrying its compression
formats (e.g. `tgz` carries two).  Display text is irrelevant here. -/
structure Extension where
  compression_formats : List CompressionFormat
deriving DecidableEq

/-- Flattening of the per-extension format lists, as done by
`flatten_compression_formats` in src/extension.rs. -/
def flatten_compression_formats (formats : List Extension) : List CompressionFormat :=
  formats.flatMap (fun e => e.compression_formats)

/-- Modelled from the spec: `split_first_compression_format` lives in
src/extension.rs, which is not among the sources; only its call site in
`decompress_file` is.  Per §2 the engine dispatches "depending on the
innermost/terminal format", and the `formats` vector is in
innermost-first order, so the function splits off the head of the
flattened format list.  `Vec::remove(0)` panics on an empty vector,
modelled by `none`. -/
def split_first_compression_format (formats : List Extension) :
    Option (CompressionFormat × List CompressionFormat) :=
  match flatten_compression_formats formats with
  | [] => none
  | f :: rest => some (f, rest)

/-- QuestionPolicy: tri-state confirmation policy (spec §3:
"always allow / never allow / ask interactively"). -/
inductive QuestionPolicy
  | alwaysYes | alwaysNo | ask
deriving DecidableEq

/-- Modelled from the spec: `utils::user_wants_to_continue` (the Interactive
Guard, a collaborator outside the sources) resolves the tri-state policy,
consulting the interactive answer only in the `ask` state. -/
def user_wants_to_continue (policy : QuestionPolicy) (askAnswer : Bool) : Bool :=
  match policy with
  | .alwaysYes => true
  | .alwaysNo => false
  | .ask => askAnswer

/-- Decoder: the shape of the boxed reader built by decoder chaining.
`file` is the buffered reader over the opened input file; `wrap f d` is the
format-`f` streaming decoder reading from `d`. -/
inductive Decoder
  | file
  | wrap (f : CompressionFormat) (inner : Decoder)
deriving DecidableEq

/-- Reading semantics of a composed decoder: `strip f` is the byte-level
decode of one format-`f` layer; a wrapper decodes whatever it pulls from its
inner reader, and the innermost reader yields the raw file bytes. -/
def readDecoded (strip : CompressionFormat → List Nat → List Nat) :
    Decoder → List Nat → List Nat
  | .file, raw => raw
  | .wrap f inner, raw => strip f (readDecoded strip inner raw)

/-- Error values distinguished by the embedding. -/
inductive Err
  | ioOpen          -- fs::File::open failed
  | zipNew          -- zip::ZipArchive::new failed
  | decode (f : CompressionFormat)  -- decoder construction failed
  | copy            -- io::copy failed
  | tempNew         -- NamedTempFile::new failed
  | extractor       -- an unpack function failed
  | rarNoSupport    -- crate::archive::rar_stub::no_support()
deriving DecidableEq

/-- Reasons for a Rust panic in the modelled code. -/
inductive PanicKind
  | assertOutputDir   -- assert!(output_dir.exists())
  | emptyFormats      -- Vec::remove(0) on an empty flattened format list
  | unreachableChain  -- unreachable!() in chain_reader_decoder
deriving DecidableEq

/-- Which archive extractor an extraction call goes through. -/
inductive Extractor
  | tar | zip | rar | sevenz
deriving DecidableEq

/-- The source handed to an extractor. -/
inductive ExtractSrc
  | seekFile                 -- the input file opened as a random-access handle
  | stream (d : Decoder)     -- the composed forward-only decoder chain
  | memBuffer (d : Decoder)  -- an in-memory buffer fully drained from d
  | origPath                 -- the original input path
  | tempPath                 -- the spooled temporary file path
deriving DecidableEq

/-- Observable events of one run, in program order. -/
inductive Event
  | openInput                    -- fs::File::open on the input path
  | chainWrap (f : CompressionFormat)  -- one chain_reader_decoder call
  | warnZipMemory
  | warnSevenZipMemory
  | guardPrompt                  -- user_wants_to_continue invoked
  | askCreateFile                -- utils::ask_to_create_file invoked
  | bufferIntoMemory (d : Decoder)  -- io::copy reader -> vec
  | writeOutputFile (d : Decoder)   -- io::copy reader -> output file
  | tempFileCreate               -- NamedTempFile::new succeeded
  | spoolToTemp (d : Decoder)    -- io::copy reader -> temp file
  | tempFileRemove               -- NamedTempFile dropped (file deleted)
  | createDirAttempt             -- fs::create_dir(output_file_path)
  | logDirCreated
  | logDirCreateFailed
  | extract (x : Extractor) (s : ExtractSrc)  -- an unpack function invoked
  | reportFiles (n : Nat)        -- final info! naming the files count
deriving DecidableEq

/-- Final outcome of a run. -/
inductive Outcome
  | ok
  | err (e : Err)
  | panicked (k : PanicKind)
deriving DecidableEq

/-- One run: its event trace and its outcome. -/
structure Run where
  events : List Event
  outcome : Outcome
deriving DecidableEq

/-- How `fs::create_dir` can fail in smart_unpack. -/
inductive DirErr
  | alreadyExists
  | other
deriving DecidableEq

/-- Oracles for every effectful collaborator consumed by decompress_file.
`none`/`false` means the corresponding operation fails; extractor results
are `some count` on success. -/
structure Env where
  outputDirExists : Bool
  openOk : Bool
  zstdOk : Bool
  zipNewDirectOk : Bool
  zipNewMemOk : Bool
  copyToVecOk : Bool
  copyToOutOk : Bool
  tempNewOk : Bool
  copyToTempOk : Bool
  createDirResult : Option DirErr
  askAnswer : Bool
  createFileAnswer : Option Unit
  tarResult : Option Nat
  zipResult : Option Nat
  rarResult : Option Nat
  sevenzResult : Option Nat
  unrarFeature : Bool
deriving DecidableEq

/-- Result of one chain_reader_decoder call. -/
inductive ChainRes
  | ok (d : Decoder)
  | err (e : Err)
  | unreachableHit
deriving DecidableEq

/-- chain_reader_decoder from decompress.rs lines 81-92: wrap the previous
decoder in a new streaming decoder.  Only the zstd constructor is fallible
(`zstd::stream::Decoder::new(decoder)?`); the four terminal formats hit
`unreachable!()`. -/
def chain_reader_decoder (zstdOk : Bool) (format : CompressionFormat)
    (decoder : Decoder) : ChainRes :=
  match format with
  | .Gzip => .ok (.wrap .Gzip decoder)
  | .Bzip => .ok (.wrap .Bzip decoder)
  | .Lz4 => .ok (.wrap .Lz4 decoder)
  | .Lzma => .ok (.wrap .Lzma decoder)
  | .Snappy => .ok (.wrap .Snappy decoder)
  | .Zstd => if zstdOk then .ok (.wrap .Zstd decoder) else .err (.decode .Zstd)
  | .Tar => .unreachableHit
  | .Zip => .unreachableHit
  | .Rar => .unreachableHit
  | .SevenZip => .unreachableHit

/-- The layer-chaining loop body applied to a list of formats in iteration
order, threading the reader and recording one `chainWrap` event per call.
`decompress_file` runs it on `rest.reverse` (`extensions.iter().rev()`). -/
def chainList (zstdOk : Bool) : List CompressionFormat → Decoder → List Event × ChainRes
  | [], d => ([], .ok d)
  | f :: ms, d =>
    match chain_reader_decoder zstdOk f d with
    | .ok d2 =>
      let r := chainList zstdOk ms d2
      (Event.chainWrap f :: r.1, r.2)
    | .err e => ([Event.chainWrap f], .err e)
    | .unreachableHit => ([Event.chainWrap f], .unreachableHit)

/-- Result of smart_unpack: the source returns
`crate::Result<ControlFlow<(), usize>>` but only ever builds
`Ok(ControlFlow::Continue(files))` or propagates the unpack error. -/
inductive SOut
  | continueWith (files : Nat)
  | errExtract
  | panicked
deriving DecidableEq

/-- Log event emitted by the create_dir match in smart_unpack. -/
def dirLogEvent : Option DirErr → Event
  | none => .logDirCreated
  | some _ => .logDirCreateFailed

/-- smart_unpack from decompress.rs lines 216-245: asserts the output
directory exists, attempts `fs::create_dir(output_file_path)` and logs either
branch without propagating, then invokes the unpack closure (given here as
its event trace and optional file count) and returns `Continue(files)` or the
propagated unpack error.  The question-policy argument is bound with an
underscore in the source and never used. -/
def smart_unpack (outputDirExists : Bool) (createDirResult : Option DirErr)
    (unpack_fn : List Event × Option Nat) (_question_policy : QuestionPolicy) :
    List Event × SOut :=
  if outputDirExists then
    match unpack_fn with
    | (uevs, some files) =>
      (Event.createDirAttempt :: dirLogEvent createDirResult :: uevs, .continueWith files)
    | (uevs, none) =>
      (Event.createDirAttempt :: dirLogEvent createDirResult :: uevs, .errExtract)
  else ([], .panicked)

/-- Result of one match arm of decompress_file: an early `return`
(with its outcome) or a fall-through files count that the final
status message reports. -/
inductive ArmRes
  | early (o : Outcome)
  | files (n : Nat)
deriving DecidableEq

/-- Lifting of a smart_unpack result into an arm result: `Continue(files)`
falls through, an unpack error propagates through the `?`, and the
assert failure panics. -/
def armOfSmart : List Event × SOut → List Event × ArmRes
  | (evs, .continueWith n) => (evs, .files n)
  | (evs, .errExtract) => (evs, .early (.err .extractor))
  | (evs, .panicked) => (evs, .early (.panicked .assertOutputDir))

/-- Tail of the Zip match arm of decompress_file (lines 134-147): drain the
decoder chain into a vec, open a ZipArchive over the in-memory cursor, and
smart-unpack from it.  `pre` is the trace of the guard prologue. -/
def zipBufferPart (env : Env) (reader : Decoder) (question_policy : QuestionPolicy)
    (pre : List Event) : List Event × ArmRes :=
  if env.copyToVecOk then
    if env.zipNewMemOk then
      let s := armOfSmart (smart_unpack env.outputDirExists env.createDirResult
        ([Event.extract .zip (.memBuffer reader)], env.zipResult) question_policy)
      (pre ++ Event.bufferIntoMemory reader :: s.1, s.2)
    else (pre ++ [Event.bufferIntoMemory reader], .early (.err .zipNew))
  else (pre ++ [Event.bufferIntoMemory reader], .early (.err .copy))

/-- Tail of the SevenZip match arm of decompress_file (lines 181-193): drain
the decoder chain into a vec and hand the cursor to the sevenz extractor. -/
def sevenzBufferPart (env : Env) (reader : Decoder) (question_policy : QuestionPolicy)
    (pre : List Event) : List Event × ArmRes :=
  if env.copyToVecOk then
    let s := armOfSmart (smart_unpack env.outputDirExists env.createDirResult
      ([Event.extract .sevenz (.memBuffer reader)], env.sevenzResult) question_policy)
    (pre ++ Event.bufferIntoMemory reader :: s.1, s.2)
  else (pre ++ [Event.bufferIntoMemory reader], .early (.err .copy))

/-- The layerable match arm of decompress_file (lines 101-112): wrap the
chain once more with the first format's decoder, ask the
overwrite-confirmation collaborator for the output file (a declined answer
is an early successful return), then copy the decoded stream into it. -/
def singleFileArm (env : Env) (first : CompressionFormat) (reader : Decoder) :
    List Event × ArmRes :=
  match chain_reader_decoder env.zstdOk first reader with
  | .ok reader2 =>
    match env.createFileAnswer with
    | none => ([Event.chainWrap first, Event.askCreateFile], .early .ok)
    | some _ =>
      if env.copyToOutOk then
        ([Event.chainWrap first, Event.askCreateFile, Event.writeOutputFile reader2],
         .files 1)
      else
        ([Event.chainWrap first, Event.askCreateFile, Event.writeOutputFile reader2],
         .early (.err .copy))
  | .err e => ([Event.chainWrap first], .early (.err e))
  | .unreachableHit => ([Event.chainWrap first], .early (.panicked .unreachableChain))

/-- The match on `first_extension` in decompress_file (lines 100-195),
with `reader` the decoder chain built by the loop over the remaining
formats. -/
def decompressArm (env : Env) (formats : List Extension)
    (question_policy : QuestionPolicy) (first : CompressionFormat)
    (reader : Decoder) : List Event × ArmRes :=
  match first with
  | .Gzip | .Bzip | .Lz4 | .Lzma | .Snappy | .Zstd =>
    singleFileArm env first reader
  | .Tar =>
    armOfSmart (smart_unpack env.outputDirExists env.createDirResult
      ([Event.extract .tar (.stream reader)], env.tarResult) question_policy)
  | .Zip =>
    if 1 < formats.length then
      if user_wants_to_continue question_policy env.askAnswer then
        zipBufferPart env reader question_policy
          [Event.warnZipMemory, Event.guardPrompt]
      else ([Event.warnZipMemory, Event.guardPrompt], .early .ok)
    else zipBufferPart env reader question_policy []
  | .Rar =>
    if env.unrarFeature then
      if 1 < formats.length then
        if env.tempNewOk then
          if env.copyToTempOk then
            let s := armOfSmart (smart_unpack env.outputDirExists env.createDirResult
              ([Event.extract .rar .tempPath, Event.tempFileRemove], env.rarResult)
              question_policy)
            (Event.tempFileCreate :: Event.spoolToTemp reader :: s.1, s.2)
          else
            ([Event.tempFileCreate, Event.spoolToTemp reader, Event.tempFileRemove],
             .early (.err .copy))
        else ([], .early (.err .tempNew))
      else
        armOfSmart (smart_unpack env.outputDirExists env.createDirResult
          ([Event.extract .rar .origPath], env.rarResult) question_policy)
    else ([], .early (.err .rarNoSupport))
  | .SevenZip =>
    if 1 < formats.length then
      if user_wants_to_continue question_policy env.askAnswer then
        sevenzBufferPart env reader question_policy
          [Event.warnSevenZipMemory, Event.guardPrompt]
      else ([Event.warnSevenZipMemory, Event.guardPrompt], .early .ok)
    else sevenzBufferPart env reader question_policy []

/-- The singleton-Zip extension list matched by the seekable fast path
(`[Extension { compression_formats: [Zip], .. }]`). -/
def zipOnlyExt : List Extension := [⟨[CompressionFormat.Zip]⟩]

/-- decompress_file from decompress.rs lines 27-209: assert the output
directory exists, open the input, take the seekable fast path for a sole
`[Zip]` extension, otherwise build the decoder chain over the formats past
the first one (in reverse) and run the arm selected by the first format,
finishing with the status report on fall-through. -/
def decompress_file (env : Env) (formats : List Extension)
    (question_policy : QuestionPolicy) : Run :=
  if env.outputDirExists then
    if env.openOk then
      if formats = zipOnlyExt then
        if env.zipNewDirectOk then
          match smart_unpack env.outputDirExists env.createDirResult
              ([Event.extract .zip .seekFile], env.zipResult) question_policy with
          | (sevs, .continueWith files) =>
            { events := Event.openInput :: sevs ++ [Event.reportFiles files],
              outcome := .ok }
          | (sevs, .errExtract) =>
            { events := Event.openInput :: sevs, outcome := .err .extractor }
          | (sevs, .panicked) =>
            { events := Event.openInput :: sevs, outcome := .panicked .assertOutputDir }
        else { events := [Event.openInput], outcome := .err .zipNew }
      else
        match split_first_compression_format formats with
        | none => { events := [Event.openInput], outcome := .panicked .emptyFormats }
        | some (first, rest) =>
          match chainList env.zstdOk rest.reverse Decoder.file with
          | (cEvs, .ok reader) =>
            match decompressArm env formats question_policy first reader with
            | (aEvs, .early o) =>
              { events := Event.openInput :: cEvs ++ aEvs, outcome := o }
            | (aEvs, .files n) =>
              { events := Event.openInput :: cEvs ++ aEvs ++ [Event.reportFiles n],
                outcome := .ok }
          | (cEvs, .err e) =>
            { events := Event.openInput :: cEvs, outcome := .err e }
          | (cEvs, .unreachableHit) =>
            { events := Event.openInput :: cEvs, outcome := .panicked .unreachableChain }
    else { events := [Event.openInput], outcome := .err .ioOpen }
  else { events := [], outcome := .panicked .assertOutputDir }

/-- Events that are extraction side effects in the sense of the spec's
Interactive Guard contract: buffering, writes, temp files, directory
creation, extractor invocations. -/
def isExtractionSideEffect : Event → Bool
  | .bufferIntoMemory _ => true
  | .writeOutputFile _ => true
  | .tempFileCreate => true
  | .spoolToTemp _ => true
  | .tempFileRemove => true
  | .createDirAttempt => true
  | .extract _ _ => true
  | _ => false

/-- Scanning a trace from the front, no event satisfying `bad` occurs
before the first `guardPrompt` (true also when neither occurs). -/
def guardedBefore (bad : Event → Bool) : List Event → Bool
  | [] => true
  | e :: rest =>
    if e = Event.guardPrompt then true
    else !bad e && guardedBefore bad rest

/-- Byte-level tag for one format, used to make strip functions observable
in concrete computations. -/
def tagOf : CompressionFormat → Nat
  | .Gzip => 0
  | .Bzip => 1
  | .Lz4 => 2
  | .Lzma => 3
  | .Snappy => 4
  | .Zstd => 5
  | .Tar => 6
  | .Zip => 7
  | .Rar => 8
  | .SevenZip => 9

/-- Concrete strip function prepending the format's tag, so that the order
in which layers are stripped is visible in the output. -/
def stripTag (f : CompressionFormat) (bs : List Nat) : List Nat := tagOf f :: bs

/-- Concrete environment in which every collaborator succeeds and every
interactive answer is affirmative. -/
def envOk : Env :=
  { outputDirExists := true, openOk := true, zstdOk := true,
    zipNewDirectOk := true, zipNewMemOk := true, copyToVecOk := true,
    copyToOutOk := true, tempNewOk := true, copyToTempOk := true,
    createDirResult := none, askAnswer := true, createFileAnswer := some (),
    tarResult := some 3, zipResult := some 4, rarResult := some 5,
    sevenzResult := some 6, unrarFeature := true }

/-- envOk with the unrar feature compiled out. -/
def envNoRar : Env := { envOk with unrarFeature := false }

/-- envOk with the unrar feature compiled out and an unopenable input. -/
def envNoRarNoOpen : Env := { envOk with unrarFeature := false, openOk := false }

/-- Descriptor of a Zip innermost under one Gzip layer (two extensions). -/
def fmtZipNested : List Extension :=
  [⟨[CompressionFormat.Zip]⟩, ⟨[CompressionFormat.Gzip]⟩]

/-- Descriptor of a Tar innermost under one Gzip layer (two extensions). -/
def fmtTarGz : List Extension :=
  [⟨[CompressionFormat.Tar]⟩, ⟨[CompressionFormat.Gzip]⟩]

/-- Descriptor of a sole Rar extension. -/
def fmtRarOnly : List Extension := [⟨[CompressionFormat.Rar]⟩]

/-- Descriptor of a Rar innermost under one Gzip layer (two extensions). -/
def fmtRarNested : List Extension :=
  [⟨[CompressionFormat.Rar]⟩, ⟨[CompressionFormat.Gzip]⟩]

/-- Descriptor of two layerable extensions only (Gzip inner, Zstd outer). -/
def fmtGzZstd : List Extension :=
  [⟨[CompressionFormat.Gzip]⟩, ⟨[CompressionFormat.Zstd]⟩]

/-! Helper lemmas about the chaining loop and traces. -/

theorem chain_reader_decoder_layerable (z : Bool) (f : CompressionFormat)
    (d : Decoder) (h : f.isLayerable = true) :
    chain_reader_decoder z f d = .ok (.wrap f d)
      ∨ chain_reader_decoder z f d = .err (.decode .Zstd) := by
  cases f <;> simp_all [CompressionFormat.isLayerable, chain_reader_decoder]

theorem chain_reader_decoder_layerable_ok (f : CompressionFormat)
    (d : Decoder) (h : f.isLayerable = true) :
    chain_reader_decoder true f d = .ok (.wrap f d) := by
  cases f <;> simp_all [CompressionFormat.isLayerable, chain_reader_decoder]

theorem chainList_all_layerable (ms : List CompressionFormat) (d : Decoder)
    (h : ∀ f ∈ ms, f.isLayerable = true) :
    chainList true ms d
      = (ms.map Event.chainWrap, .ok (ms.foldl (fun d f => .wrap f d) d)) := by
  induction ms generalizing d with
  | nil => rfl
  | cons f ms ih =>
    have hf : f.isLayerable = true := h f (by simp)
    have hms : ∀ g ∈ ms, g.isLayerable = true := fun g hg => h g (by simp [hg])
    simp [chainList, chain_reader_decoder_layerable_ok f d hf, ih _ hms]

theorem chainList_ne_unreachable (z : Bool) (ms : List CompressionFormat)
    (h : ∀ f ∈ ms, f.isLayerable = true) (d : Decoder) :
    (chainList z ms d).2 ≠ .unreachableHit := by
  induction ms generalizing d with
  | nil => simp [chainList]
  | cons f ms ih =>
    have hf : f.isLayerable = true := h f (by simp)
    have hms : ∀ g ∈ ms, g.isLayerable = true := fun g hg => h g (by simp [hg])
    rcases chain_reader_decoder_layerable z f d hf with hc | hc <;>
      simp [chainList, hc, ih hms]

theorem chainList_events_wraps (z : Bool) (ms : List CompressionFormat)
    (d : Decoder) : ∀ e ∈ (chainList z ms d).1, ∃ f, e = Event.chainWrap f := by
  induction ms generalizing d with
  | nil => simp [chainList]
  | cons f ms ih =>
    intro e he
    rcases hc : chain_reader_decoder z f d with d2 | er | _ <;>
      rw [chainList, hc] at he <;> simp at he
    · rcases he with he | he
      · exact ⟨f, he⟩
      · exact ih d2 e he
    · exact ⟨f, he⟩
    · exact ⟨f, he⟩

theorem guardedBefore_of_forall (bad : Event → Bool) (l : List Event)
    (h : ∀ e ∈ l, bad e = false) : guardedBefore bad l = true := by
  induction l with
  | nil => rfl
  | cons e l ih =>
    rw [guardedBefore]
    split
    · rfl
    · simp [h e (by simp), ih fun x hx => h x (by simp [hx])]

theorem guardedBefore_append (bad : Event → Bool) (l1 l2 : List Event)
    (h1 : ∀ e ∈ l1, bad e = false) (h2 : guardedBefore bad l2 = true) :
    guardedBefore bad (l1 ++ l2) = true := by
  induction l1 with
  | nil => simpa
  | cons e l1 ih =>
    rw [List.cons_append, guardedBefore]
    split
    · rfl
    · simp [h1 e (by simp), ih fun x hx => h1 x (by simp [hx])]

theorem guardedBefore_guard_cons (bad : Event → Bool) (l : List Event) :
    guardedBefore bad (Event.guardPrompt :: l) = true := by
  rw [guardedBefore]
  simp

theorem readDecoded_foldr (strip : CompressionFormat → List Nat → List Nat)
    (ms : List CompressionFormat) (raw : List Nat) :
    readDecoded strip (ms.foldr Decoder.wrap Decoder.file) raw
      = ms.foldr strip raw := by
  induction ms with
  | nil => rfl
  | cons f ms ih => simp [readDecoded, ih]

theorem ne_singleton_of_one_lt_length {α : Type} (l : List α) (x : α)
    (h : 1 < l.length) : l ≠ [x] := by
  intro he
  rw [he] at h
  simp at h

/-! Reduction equations for `decompress_file`, one per top-level control
path, used to evaluate runs symbolically in the claim proofs. -/

theorem decompress_file_no_dir (env : Env) (formats : List Extension)
    (policy : QuestionPolicy) (hood : env.outputDirExists = false) :
    decompress_file env formats policy
      = { events := [], outcome := .panicked .assertOutputDir } := by
  rw [decompress_file]
  simp [hood]

theorem decompress_file_open_fail (env : Env) (formats : List Extension)
    (policy : QuestionPolicy) (hood : env.outputDirExists = true)
    (hopen : env.openOk = false) :
    decompress_file env formats policy
      = { events := [Event.openInput], outcome := .err .ioOpen } := by
  rw [decompress_file]
  simp [hood, hopen]

theorem decompress_file_zip_fast_new_fail (env : Env) (policy : QuestionPolicy)
    (hood : env.outputDirExists = true) (hopen : env.openOk = true)
    (hzd : env.zipNewDirectOk = false) :
    decompress_file env zipOnlyExt policy
      = { events := [Event.openInput], outcome := .err .zipNew } := by
  rw [decompress_file]
  simp [hood, hopen, hzd]

theorem decompress_file_zip_fast_ok (env : Env) (policy : QuestionPolicy)
    (n : Nat) (hood : env.outputDirExists = true) (hopen : env.openOk = true)
    (hzd : env.zipNewDirectOk = true) (hzr : env.zipResult = some n) :
    decompress_file env zipOnlyExt policy
      = { events := [Event.openInput, Event.createDirAttempt,
                     dirLogEvent env.createDirResult, Event.extract .zip .seekFile,
                     Event.reportFiles n],
          outcome := .ok } := by
  rw [decompress_file]
  simp [hood, hopen, hzd, hzr, smart_unpack]

theorem decompress_file_zip_fast_extract_fail (env : Env) (policy : QuestionPolicy)
    (hood : env.outputDirExists = true) (hopen : env.openOk = true)
    (hzd : env.zipNewDirectOk = true) (hzr : env.zipResult = none) :
    decompress_file env zipOnlyExt policy
      = { events := [Event.openInput, Event.createDirAttempt,
                     dirLogEvent env.createDirResult, Event.extract .zip .seekFile],
          outcome := .err .extractor } := by
  rw [decompress_file]
  simp [hood, hopen, hzd, hzr, smart_unpack]

theorem decompress_file_general (env : Env) (formats : List Extension)
    (policy : QuestionPolicy) (first : CompressionFormat)
    (rest : List CompressionFormat) (cEvs : List Event) (reader : Decoder)
    (aEvs : List Event) (ar : ArmRes)
    (hood : env.outputDirExists = true) (hopen : env.openOk = true)
    (hfz : formats ≠ zipOnlyExt)
    (hsplit : split_first_compression_format formats = some (first, rest))
    (hc : chainList env.zstdOk rest.reverse Decoder.file = (cEvs, ChainRes.ok reader))
    (ha : decompressArm env formats policy first reader = (aEvs, ar)) :
    decompress_file env formats policy
      = match ar with
        | ArmRes.early o => { events := Event.openInput :: cEvs ++ aEvs, outcome := o }
        | ArmRes.files n =>
          { events := Event.openInput :: cEvs ++ aEvs ++ [Event.reportFiles n],
            outcome := .ok } := by
  rw [decompress_file]
  simp [hood, hopen, hfz, hsplit, hc, ha]
  cases ar <;> rfl

theorem decompress_file_chain_err (env : Env) (formats : List Extension)
    (policy : QuestionPolicy) (first : CompressionFormat)
    (rest : List CompressionFormat) (cEvs : List Event) (e : Err)
    (hood : env.outputDirExists = true) (hopen : env.openOk = true)
    (hfz : formats ≠ zipOnlyExt)
    (hsplit : split_first_compression_format formats = some (first, rest))
    (hc : chainList env.zstdOk rest.reverse Decoder.file = (cEvs, ChainRes.err e)) :
    decompress_file env formats policy
      = { events := Event.openInput :: cEvs, outcome := .err e } := by
  rw [decompress_file]
  simp [hood, hopen, hfz, hsplit, hc]

theorem decompress_file_chain_unreachable (env : Env) (formats : List Extension)
    (policy : QuestionPolicy) (first : CompressionFormat)
    (rest : List CompressionFormat) (cEvs : List Event)
    (hood : env.outputDirExists = true) (hopen : env.openOk = true)
    (hfz : formats ≠ zipOnlyExt)
    (hsplit : split_first_compression_format formats = some (first, rest))
    (hc : chainList env.zstdOk rest.reverse Decoder.file
        = (cEvs, ChainRes.unreachableHit)) :
    decompress_file env formats policy
      = { events := Event.openInput :: cEvs,
          outcome := .panicked .unreachableChain } := by
  rw [decompress_file]
  simp [hood, hopen, hfz, hsplit, hc]

theorem armOfSmart_fst (s : List Event × SOut) : (armOfSmart s).1 = s.1 := by
  rcases s with ⟨evs, so⟩
  cases so <;> rfl

theorem dirLogEvent_cases (cd : Option DirErr) :
    dirLogEvent cd = Event.logDirCreated ∨ dirLogEvent cd = Event.logDirCreateFailed := by
  cases cd <;> simp [dirLogEvent]

theorem split_zipOnly :
    split_first_compression_format zipOnlyExt = some (CompressionFormat.Zip, []) := rfl

theorem formats_ne_zipOnly_of_split (formats : List Extension)
    (first : CompressionFormat) (rest : List CompressionFormat)
    (hsplit : split_first_compression_format formats = some (first, rest))
    (hf : first ≠ CompressionFormat.Zip) : formats ≠ zipOnlyExt := by
  intro h
  subst h
  rw [split_zipOnly] at hsplit
  injection hsplit with h2
  exact hf (congrArg Prod.fst h2).symm

theorem split_eq_of_flatten (formats : List Extension) (first : CompressionFormat)
    (rest : List CompressionFormat)
    (h : flatten_compression_formats formats = first :: rest) :
    split_first_compression_format formats = some (first, rest) := by
  rw [split_first_compression_format, h]

theorem chainList_not_side_effect (z : Bool) (ms : List CompressionFormat)
    (d : Decoder) : ∀ e ∈ (chainList z ms d).1, isExtractionSideEffect e = false := by
  intro e he
  obtain ⟨f, rfl⟩ := chainList_events_wraps z ms d e he
  rfl

theorem guardedBefore_cons_append (bad : Event → Bool) (l1 l2 : List Event)
    (h0 : bad Event.openInput = false)
    (h1 : ∀ e ∈ l1, bad e = false) (h2 : guardedBefore bad l2 = true) :
    guardedBefore bad (Event.openInput :: l1 ++ l2) = true := by
  have hb : guardedBefore bad (l1 ++ l2) = true := guardedBefore_append bad l1 l2 h1 h2
  rw [List.cons_append, guardedBefore]
  split
  · rfl
  · simp [h0, hb]

theorem guardedBefore_warn_guard (e : Event) (l : List Event)
    (he : isExtractionSideEffect e = false) :
    guardedBefore isExtractionSideEffect (e :: Event.guardPrompt :: l) = true := by
  rw [guardedBefore]
  split
  · rfl
  · simp [he, guardedBefore_guard_cons]

theorem zipBufferPart_events (env : Env) (reader : Decoder) (p : QuestionPolicy)
    (pre : List Event) :
    ∃ tail, (zipBufferPart env reader p pre).1 = pre ++ tail := by
  rw [zipBufferPart]
  split_ifs <;> exact ⟨_, rfl⟩

theorem sevenzBufferPart_events (env : Env) (reader : Decoder) (p : QuestionPolicy)
    (pre : List Event) :
    ∃ tail, (sevenzBufferPart env reader p pre).1 = pre ++ tail := by
  rw [sevenzBufferPart]
  split_ifs <;> exact ⟨_, rfl⟩

theorem decompressArm_zip_events_shape (env : Env) (formats : List Extension)
    (p : QuestionPolicy) (reader : Decoder) (hlen : 1 < formats.length) :
    ∃ tail, (decompressArm env formats p .Zip reader).1
      = Event.warnZipMemory :: Event.guardPrompt :: tail := by
  rw [decompressArm]
  simp only [hlen, if_true]
  split
  · obtain ⟨tail, ht⟩ := zipBufferPart_events env reader p
      [Event.warnZipMemory, Event.guardPrompt]
    exact ⟨tail, by simpa using ht⟩
  · exact ⟨[], rfl⟩

theorem decompressArm_sevenz_events_shape (env : Env) (formats : List Extension)
    (p : QuestionPolicy) (reader : Decoder) (hlen : 1 < formats.length) :
    ∃ tail, (decompressArm env formats p .SevenZip reader).1
      = Event.warnSevenZipMemory :: Event.guardPrompt :: tail := by
  rw [decompressArm]
  simp only [hlen, if_true]
  split
  · obtain ⟨tail, ht⟩ := sevenzBufferPart_events env reader p
      [Event.warnSevenZipMemory, Event.guardPrompt]
    exact ⟨tail, by simpa using ht⟩
  · exact ⟨[], rfl⟩

theorem decompressArm_zip_decline (env : Env) (formats : List Extension)
    (p : QuestionPolicy) (reader : Decoder) (hlen : 1 < formats.length)
    (hu : user_wants_to_continue p env.askAnswer = false) :
    decompressArm env formats p .Zip reader
      = ([Event.warnZipMemory, Event.guardPrompt], .early .ok) := by
  rw [decompressArm]
  simp [hlen, hu]

theorem decompressArm_sevenz_decline (env : Env) (formats : List Extension)
    (p : QuestionPolicy) (reader : Decoder) (hlen : 1 < formats.length)
    (hu : user_wants_to_continue p env.askAnswer = false) :
    decompressArm env formats p .SevenZip reader
      = ([Event.warnSevenZipMemory, Event.guardPrompt], .early .ok) := by
  rw [decompressArm]
  simp [hlen, hu]

theorem decompressArm_layerable (env : Env) (formats : List Extension)
    (p : QuestionPolicy) (first : CompressionFormat) (reader : Decoder)
    (hl : first.isLayerable = true) :
    decompressArm env formats p first reader = singleFileArm env first reader := by
  cases first <;> simp_all [CompressionFormat.isLayerable, decompressArm]

theorem singleFileArm_decline (env : Env) (first : CompressionFormat)
    (reader : Decoder) (hl : first.isLayerable = true) (hz : env.zstdOk = true)
    (hcf : env.createFileAnswer = none) :
    singleFileArm env first reader
      = ([Event.chainWrap first, Event.askCreateFile], .early .ok) := by
  rw [singleFileArm, hz, chain_reader_decoder_layerable_ok first reader hl, hcf]

theorem singleFileArm_write (env : Env) (first : CompressionFormat)
    (reader : Decoder) (hl : first.isLayerable = true) (hz : env.zstdOk = true)
    (hcf : env.createFileAnswer = some ()) (hco : env.copyToOutOk = true) :
    singleFileArm env first reader
      = ([Event.chainWrap first, Event.askCreateFile,
          Event.writeOutputFile (Decoder.wrap first reader)], .files 1) := by
  rw [singleFileArm, hz, chain_reader_decoder_layerable_ok first reader hl, hcf]
  simp [hco]

theorem decompressArm_rar_alone (env : Env) (formats : List Extension)
    (p : QuestionPolicy) (reader : Decoder) (hunrar : env.unrarFeature = true)
    (hlen : ¬ 1 < formats.length) :
    decompressArm env formats p .Rar reader
      = armOfSmart (smart_unpack env.outputDirExists env.createDirResult
          ([Event.extract .rar .origPath], env.rarResult) p) := by
  rw [decompressArm]
  simp [hunrar, hlen]

theorem decompressArm_rar_nested (env : Env) (formats : List Extension)
    (p : QuestionPolicy) (reader : Decoder) (hunrar : env.unrarFeature = true)
    (hlen : 1 < formats.length) (ht : env.tempNewOk = true)
    (hcp : env.copyToTempOk = true) :
    decompressArm env formats p .Rar reader
      = (Event.tempFileCreate :: Event.spoolToTemp reader ::
          (armOfSmart (smart_unpack env.outputDirExists env.createDirResult
            ([Event.extract .rar .tempPath, Event.tempFileRemove], env.rarResult) p)).1,
         (armOfSmart (smart_unpack env.outputDirExists env.createDirResult
            ([Event.extract .rar .tempPath, Event.tempFileRemove], env.rarResult) p)).2) := by
  rw [decompressArm]
  simp [hunrar, hlen, ht, hcp]

theorem decompressArm_rar_no_support (env : Env) (formats : List Extension)
    (p : QuestionPolicy) (reader : Decoder) (hunrar : env.unrarFeature = false) :
    decompressArm env formats p .Rar reader
      = ([], .early (.err .rarNoSupport)) := by
  rw [decompressArm]
  simp [hunrar]

theorem decompressArm_rar_policy (env : Env) (formats : List Extension)
    (p1 p2 : QuestionPolicy) (reader : Decoder) :
    decompressArm env formats p1 .Rar reader
      = decompressArm env formats p2 .Rar reader := rfl

theorem smart_unpack_fst_cases (de : Bool) (cd : Option DirErr)
    (u : List Event × Option Nat) (p : QuestionPolicy) :
    (smart_unpack de cd u p).1 = []
    ∨ (smart_unpack de cd u p).1
        = Event.createDirAttempt :: dirLogEvent cd :: u.1 := by
  rcases u with ⟨uevs, ur⟩
  cases de <;> cases ur <;> simp [smart_unpack]

theorem not_mem_smart_unpack (de : Bool) (cd : Option DirErr)
    (u : List Event × Option Nat) (p : QuestionPolicy) (x : Event)
    (hx1 : x ≠ Event.createDirAttempt) (hx2 : x ≠ Event.logDirCreated)
    (hx3 : x ≠ Event.logDirCreateFailed) (hx4 : x ∉ u.1) :
    x ∉ (smart_unpack de cd u p).1 := by
  rcases smart_unpack_fst_cases de cd u p with h | h <;> rw [h]
  · simp
  · intro hm
    rcases List.mem_cons.mp hm with h1 | hm2
    · exact hx1 h1
    · rcases List.mem_cons.mp hm2 with h1 | hm3
      · rcases dirLogEvent_cases cd with hd | hd <;> rw [hd] at h1
        · exact hx2 h1
        · exact hx3 h1
      · exact hx4 hm3

theorem not_mem_of_shape (cEvs : List Event)
    (hwraps : ∀ e ∈ cEvs, ∃ f, e = Event.chainWrap f) (x : Event)
    (hx1 : x ≠ Event.openInput) (hx2 : ∀ f, x ≠ Event.chainWrap f)
    (l2 : List Event) (hx3 : x ∉ l2) :
    x ∉ Event.openInput :: cEvs ++ l2 := by
  intro h
  rcases List.mem_cons.mp h with h1 | h1
  · exact hx1 h1
  · rcases List.mem_append.mp h1 with h2 | h2
    · obtain ⟨f, hf⟩ := hwraps x h2
      exact hx2 f hf
    · exact hx3 h2

theorem armOfSmart_snd_ne (s : List Event × SOut) :
    (armOfSmart s).2 ≠ ArmRes.early (Outcome.panicked PanicKind.unreachableChain) := by
  rcases s with ⟨evs, so⟩
  cases so <;> simp [armOfSmart]

theorem zipBufferPart_snd_ne (env : Env) (reader : Decoder) (p : QuestionPolicy)
    (pre : List Event) :
    (zipBufferPart env reader p pre).2
      ≠ ArmRes.early (Outcome.panicked PanicKind.unreachableChain) := by
  rw [zipBufferPart]
  split_ifs <;> simp [armOfSmart_snd_ne]

theorem sevenzBufferPart_snd_ne (env : Env) (reader : Decoder) (p : QuestionPolicy)
    (pre : List Event) :
    (sevenzBufferPart env reader p pre).2
      ≠ ArmRes.early (Outcome.panicked PanicKind.unreachableChain) := by
  rw [sevenzBufferPart]
  split_ifs <;> simp [armOfSmart_snd_ne]

theorem singleFileArm_snd_ne (env : Env) (first : CompressionFormat)
    (reader : Decoder) (h : first.isLayerable = true) :
    (singleFileArm env first reader).2
      ≠ ArmRes.early (Outcome.panicked PanicKind.unreachableChain) := by
  rcases chain_reader_decoder_layerable env.zstdOk first reader h with hc | hc <;>
    rw [singleFileArm, hc]
  · cases env.createFileAnswer <;> simp
    split <;> simp
  · simp

theorem decompressArm_snd_ne (env : Env) (formats : List Extension)
    (p : QuestionPolicy) (first : CompressionFormat) (reader : Decoder) :
    (decompressArm env formats p first reader).2
      ≠ ArmRes.early (Outcome.panicked PanicKind.unreachableChain) := by
  cases first <;> rw [decompressArm]
  case Gzip => exact singleFileArm_snd_ne env _ reader rfl
  case Bzip => exact singleFileArm_snd_ne env _ reader rfl
  case Lz4 => exact singleFileArm_snd_ne env _ reader rfl
  case Lzma => exact singleFileArm_snd_ne env _ reader rfl
  case Snappy => exact singleFileArm_snd_ne env _ reader rfl
  case Zstd => exact singleFileArm_snd_ne env _ reader rfl
  case Tar => exact armOfSmart_snd_ne _
  case Zip =>
    split_ifs <;> simp [zipBufferPart_snd_ne]
  case Rar =>
    split_ifs <;> simp [armOfSmart_snd_ne]
  case SevenZip =>
    split_ifs <;> simp [sevenzBufferPart_snd_ne]

/-! Claim theorems. -/

/-- C3, counterexample: the claim states that a subdirectory-creation
failure other than directory-already-exists is fatal (propagated as an
error, extraction not attempted).  In the code both match arms of
`fs::create_dir` only log: with a creation failure of the other kind
(`DirErr.other`, e.g. permission denied) smart_unpack still invokes the
extractor and returns `Continue(3)` rather than an error. -/
theorem smart_unpack_other_dir_error_not_fatal :
    smart_unpack true (some DirErr.other)
        ([Event.extract .tar (.stream Decoder.file)], some 3) .ask
      = ([Event.createDirAttempt, Event.logDirCreateFailed,
          Event.extract .tar (.stream Decoder.file)], SOut.continueWith 3)
    ∧ (smart_unpack true (some DirErr.other)
        ([Event.extract .tar (.stream Decoder.file)], some 3) .ask).2
        ≠ SOut.errExtract := by
  decide

/-- C3, amended: in smart_unpack every subdirectory-creation failure —
directory-already-exists or any other error — is tolerated and logged, and
extraction still proceeds into that path; the run's result is exactly the
unpack function's result. -/
theorem smart_unpack_dir_create_failure_tolerated (e : DirErr)
    (u : List Event × Option Nat) (p : QuestionPolicy) :
    (smart_unpack true (some e) u p).1
        = Event.createDirAttempt :: Event.logDirCreateFailed :: u.1
    ∧ (∀ n, u.2 = some n → (smart_unpack true (some e) u p).2 = SOut.continueWith n)
    ∧ (u.2 = none → (smart_unpack true (some e) u p).2 = SOut.errExtract) := by
  rcases u with ⟨uevs, ur⟩
  cases ur <;> simp [smart_unpack, dirLogEvent]

/-- C3, witness for the amended claim at a concrete input: creation fails
with directory-already-exists, and extraction proceeds, yielding the unpack
function's file count. -/
theorem smart_unpack_dir_create_failure_tolerated_witness :
    (smart_unpack true (some DirErr.alreadyExists)
        ([Event.extract .tar (.stream Decoder.file)], some 2) .alwaysNo).2
      = SOut.continueWith 2 :=
  (smart_unpack_dir_create_failure_tolerated DirErr.alreadyExists
      ([Event.extract .tar (.stream Decoder.file)], some 2) .alwaysNo).2.1 2 rfl

/-- C9: smart_unpack ignores the confirmation policy it receives (the
source binds it as `_question_policy`): any two policies yield identical
traces and results, and every event of a run is either an event of the
supplied unpack function or one of smart_unpack's own directory-creation
events — never a confirmation prompt of its own. -/
theorem smart_unpack_policy_independent (dirExists : Bool) (cd : Option DirErr)
    (u : List Event × Option Nat) (p1 p2 : QuestionPolicy) :
    smart_unpack dirExists cd u p1 = smart_unpack dirExists cd u p2
    ∧ ∀ e ∈ (smart_unpack dirExists cd u p1).1,
        e ∈ u.1 ∨ e = Event.createDirAttempt ∨ e = Event.logDirCreated
          ∨ e = Event.logDirCreateFailed := by
  refine ⟨rfl, ?_⟩
  rcases u with ⟨uevs, ur⟩
  intro e he
  cases dirExists with
  | false => simp [smart_unpack] at he
  | true =>
    cases ur <;> cases cd <;>
      simp [smart_unpack, dirLogEvent] at he <;> tauto

/-- C9, witness: at a concrete unpack function and environment the two
policies agree and the extractor invocation event comes from the unpack
function. -/
theorem smart_unpack_policy_independent_witness :
    smart_unpack true none ([Event.extract .zip .seekFile], some 1) .alwaysYes
      = smart_unpack true none ([Event.extract .zip .seekFile], some 1) .alwaysNo
    ∧ (Event.extract .zip .seekFile ∈ ([Event.extract .zip .seekFile] : List Event)
        ∨ Event.extract .zip .seekFile = Event.createDirAttempt
        ∨ Event.extract .zip .seekFile = Event.logDirCreated
        ∨ Event.extract .zip .seekFile = Event.logDirCreateFailed) :=
  ⟨(smart_unpack_policy_independent true none
      ([Event.extract .zip .seekFile], some 1) .alwaysYes .alwaysNo).1,
   (smart_unpack_policy_independent true none
      ([Event.extract .zip .seekFile], some 1) .alwaysYes .alwaysNo).2
      (Event.extract .zip .seekFile) (by decide)⟩

/-- C5: the decoder chain builder iterates the remaining formats in reverse
(`extensions.iter().rev()`), building wrappers innermost-first.  For any
all-layerable format list `rest` (in the innermost-first order of the
`formats` vector, so `rest`'s last element is the outermost, last-applied
layer), the loop yields exactly the right-fold of wrappers, and reading the
composed decoder applies the strip functions so that the outermost layer is
stripped from the raw bytes first and fed to the next inner decoder:
`rest.foldr strip raw` strips `rest`'s last element innermost in the
function composition, i.e. first on the raw bytes. -/
theorem chain_builder_reverse_order (rest : List CompressionFormat)
    (h : ∀ f ∈ rest, f.isLayerable = true) :
    chainList true rest.reverse Decoder.file
        = (rest.reverse.map Event.chainWrap,
           ChainRes.ok (rest.foldr Decoder.wrap Decoder.file))
    ∧ ∀ (strip : CompressionFormat → List Nat → List Nat) (raw : List Nat),
        readDecoded strip (rest.foldr Decoder.wrap Decoder.file) raw
          = rest.foldr strip raw := by
  have hrev : ∀ f ∈ rest.reverse, f.isLayerable = true := fun f hf =>
    h f (List.mem_reverse.mp hf)
  constructor
  · rw [chainList_all_layerable rest.reverse Decoder.file hrev, List.foldl_reverse]
  · intro strip raw
    exact readDecoded_foldr strip rest raw

/-- C5, witness: for `rest = [Lzma, Gzip]` (Lzma inner, Gzip the outermost
layer) the loop builds `wrap Lzma (wrap Gzip file)` and reading it strips
Gzip from the raw bytes first, then Lzma: the Lzma tag ends up outermost in
the output. -/
theorem chain_builder_reverse_order_witness :
    (chainList true
        ([CompressionFormat.Lzma, CompressionFormat.Gzip]).reverse Decoder.file).2
      = ChainRes.ok (Decoder.wrap .Lzma (Decoder.wrap .Gzip Decoder.file))
    ∧ readDecoded stripTag
        (Decoder.wrap .Lzma (Decoder.wrap .Gzip Decoder.file)) [42]
      = [tagOf .Lzma, tagOf .Gzip, 42] := by
  have h := chain_builder_reverse_order [CompressionFormat.Lzma, CompressionFormat.Gzip]
    (by decide)
  refine ⟨?_, by simpa using h.2 stripTag [42]⟩
  rw [h.1]
  rfl

/-- C8: for every format list satisfying the descriptor invariant — the
terminal format occurs only innermost, so every format after the split-off
first one is layerable — the layer-chaining loop of decompress_file never
hands a Tar, Zip, Rar or SevenZip format to chain_reader_decoder, and the
`unreachable!()` branch is never executed: the loop's result is never
`unreachableHit` and the run never ends in the unreachable-chain panic. -/
theorem chain_loop_never_unreachable (env : Env) (formats : List Extension)
    (policy : QuestionPolicy) (first : CompressionFormat)
    (rest : List CompressionFormat)
    (hsplit : split_first_compression_format formats = some (first, rest))
    (hrest : ∀ f ∈ rest, f.isLayerable = true) :
    (chainList env.zstdOk rest.reverse Decoder.file).2 ≠ ChainRes.unreachableHit
    ∧ (decompress_file env formats policy).outcome
        ≠ Outcome.panicked PanicKind.unreachableChain := by
  have hrev : ∀ f ∈ rest.reverse, f.isLayerable = true := fun f hf =>
    hrest f (List.mem_reverse.mp hf)
  refine ⟨chainList_ne_unreachable env.zstdOk rest.reverse hrev Decoder.file, ?_⟩
  cases hood : env.outputDirExists with
  | false => rw [decompress_file_no_dir env formats policy hood]; simp
  | true =>
    cases hopen : env.openOk with
    | false => rw [decompress_file_open_fail env formats policy hood hopen]; simp
    | true =>
      by_cases hfz : formats = zipOnlyExt
      · subst hfz
        cases hzd : env.zipNewDirectOk with
        | false => rw [decompress_file_zip_fast_new_fail env policy hood hopen hzd]; simp
        | true =>
          cases hzr : env.zipResult with
          | none =>
            rw [decompress_file_zip_fast_extract_fail env policy hood hopen hzd hzr]
            simp
          | some n =>
            rw [decompress_file_zip_fast_ok env policy n hood hopen hzd hzr]
            simp
      · rcases hc : chainList env.zstdOk rest.reverse Decoder.file with ⟨cEvs, cr⟩
        cases cr with
        | ok reader =>
          rcases ha : decompressArm env formats policy first reader with ⟨aEvs, ar⟩
          rw [decompress_file_general env formats policy first rest cEvs reader aEvs ar
            hood hopen hfz hsplit hc ha]
          have hne := decompressArm_snd_ne env formats policy first reader
          rw [ha] at hne
          cases ar with
          | early o =>
            have ho : o ≠ Outcome.panicked PanicKind.unreachableChain := by
              simpa using hne
            simpa using ho
          | files n => simp
        | err e =>
          rw [decompress_file_chain_err env formats policy first rest cEvs e
            hood hopen hfz hsplit hc]
          simp
        | unreachableHit =>
          exact absurd (by rw [hc])
            (chainList_ne_unreachable env.zstdOk rest.reverse hrev Decoder.file)

/-- C8, witness: for the descriptor Tar-under-Gzip in the all-success
environment, the loop result is not the unreachable marker and the run does
not end in the unreachable-chain panic. -/
theorem chain_loop_never_unreachable_witness :
    (chainList envOk.zstdOk [CompressionFormat.Gzip].reverse Decoder.file).2
        ≠ ChainRes.unreachableHit
    ∧ (decompress_file envOk fmtTarGz .ask).outcome
        ≠ Outcome.panicked PanicKind.unreachableChain :=
  chain_loop_never_unreachable envOk fmtTarGz .ask CompressionFormat.Tar
    [CompressionFormat.Gzip] (by decide) (by decide)

/-- C1: for a format list whose terminal (first, innermost) format is Zip or
SevenZip nested under at least one more layer (more than one extension),
decompress_file consults the Interactive Guard before any buffering or
extraction side effect appears in the trace; and if the guard answer is a
decline on an otherwise healthy prologue, the run returns success with no
subdirectory-creation attempt, no extractor invocation and no in-memory
buffering. -/
theorem nested_seek_terminal_guard (env : Env) (formats : List Extension)
    (policy : QuestionPolicy) (first : CompressionFormat)
    (rest : List CompressionFormat)
    (hsplit : split_first_compression_format formats = some (first, rest))
    (hfirst : first = CompressionFormat.Zip ∨ first = CompressionFormat.SevenZip)
    (hlen : 1 < formats.length) :
    guardedBefore isExtractionSideEffect (decompress_file env formats policy).events
        = true
    ∧ (user_wants_to_continue policy env.askAnswer = false →
        env.outputDirExists = true → env.openOk = true →
        ∀ cEvs reader,
          chainList env.zstdOk rest.reverse Decoder.file
            = (cEvs, ChainRes.ok reader) →
          (decompress_file env formats policy).outcome = Outcome.ok
          ∧ Event.createDirAttempt ∉ (decompress_file env formats policy).events
          ∧ (∀ x s, Event.extract x s ∉ (decompress_file env formats policy).events)
          ∧ (∀ d, Event.bufferIntoMemory d
                ∉ (decompress_file env formats policy).events)) := by
  have hfz : formats ≠ zipOnlyExt :=
    ne_singleton_of_one_lt_length formats ⟨[CompressionFormat.Zip]⟩ hlen
  constructor
  · cases hood : env.outputDirExists with
    | false =>
      rw [decompress_file_no_dir env formats policy hood]
      rfl
    | true =>
      cases hopen : env.openOk with
      | false =>
        rw [decompress_file_open_fail env formats policy hood hopen]
        decide
      | true =>
        rcases hc : chainList env.zstdOk rest.reverse Decoder.file with ⟨cEvs, cr⟩
        have hcev : ∀ e ∈ cEvs, isExtractionSideEffect e = false := by
          have h2 := chainList_not_side_effect env.zstdOk rest.reverse Decoder.file
          rw [hc] at h2
          exact h2
        cases cr with
        | err e =>
          rw [decompress_file_chain_err env formats policy first rest cEvs e
            hood hopen hfz hsplit hc]
          apply guardedBefore_of_forall
          intro x hx
          rcases List.mem_cons.mp hx with h1 | h1
          · subst h1; rfl
          · exact hcev x h1
        | unreachableHit =>
          rw [decompress_file_chain_unreachable env formats policy first rest cEvs
            hood hopen hfz hsplit hc]
          apply guardedBefore_of_forall
          intro x hx
          rcases List.mem_cons.mp hx with h1 | h1
          · subst h1; rfl
          · exact hcev x h1
        | ok reader =>
          rcases hfirst with rfl | rfl
          · obtain ⟨tail, htail⟩ :=
              decompressArm_zip_events_shape env formats policy reader hlen
            rcases ha : decompressArm env formats policy .Zip reader with ⟨aEvs, ar⟩
            rw [ha] at htail
            have haEvs : aEvs
                = Event.warnZipMemory :: Event.guardPrompt :: tail := htail
            rw [decompress_file_general env formats policy _ rest cEvs reader aEvs ar
              hood hopen hfz hsplit hc ha]
            subst haEvs
            cases ar with
            | early o =>
              exact guardedBefore_cons_append _ cEvs _ rfl hcev
                (guardedBefore_warn_guard _ tail rfl)
            | files n =>
              simp only [List.append_assoc]
              refine guardedBefore_cons_append _ cEvs _ rfl hcev ?_
              simp only [List.cons_append]
              exact guardedBefore_warn_guard _ _ rfl
          · obtain ⟨tail, htail⟩ :=
              decompressArm_sevenz_events_shape env formats policy reader hlen
            rcases ha : decompressArm env formats policy .SevenZip reader with ⟨aEvs, ar⟩
            rw [ha] at htail
            have haEvs : aEvs
                = Event.warnSevenZipMemory :: Event.guardPrompt :: tail := htail
            rw [decompress_file_general env formats policy _ rest cEvs reader aEvs ar
              hood hopen hfz hsplit hc ha]
            subst haEvs
            cases ar with
            | early o =>
              exact guardedBefore_cons_append _ cEvs _ rfl hcev
                (guardedBefore_warn_guard _ tail rfl)
            | files n =>
              simp only [List.append_assoc]
              refine guardedBefore_cons_append _ cEvs _ rfl hcev ?_
              simp only [List.cons_append]
              exact guardedBefore_warn_guard _ _ rfl
  · intro hu hood hopen cEvs reader hc
    have hwraps : ∀ e ∈ cEvs, ∃ f, e = Event.chainWrap f := by
      have h2 := chainList_events_wraps env.zstdOk rest.reverse Decoder.file
      rw [hc] at h2
      exact h2
    rcases hfirst with rfl | rfl
    · have ha := decompressArm_zip_decline env formats policy reader hlen hu
      rw [decompress_file_general env formats policy _ rest cEvs reader _ _
        hood hopen hfz hsplit hc ha]
      refine ⟨rfl, ?_, ?_, ?_⟩
      · exact not_mem_of_shape cEvs hwraps _ (by simp) (fun f => by simp) _ (by simp)
      · intro x s
        exact not_mem_of_shape cEvs hwraps _ (by simp) (fun f => by simp) _ (by simp)
      · intro d
        exact not_mem_of_shape cEvs hwraps _ (by simp) (fun f => by simp) _ (by simp)
    · have ha := decompressArm_sevenz_decline env formats policy reader hlen hu
      rw [decompress_file_general env formats policy _ rest cEvs reader _ _
        hood hopen hfz hsplit hc ha]
      refine ⟨rfl, ?_, ?_, ?_⟩
      · exact not_mem_of_shape cEvs hwraps _ (by simp) (fun f => by simp) _ (by simp)
      · intro x s
        exact not_mem_of_shape cEvs hwraps _ (by simp) (fun f => by simp) _ (by simp)
      · intro d
        exact not_mem_of_shape cEvs hwraps _ (by simp) (fun f => by simp) _ (by simp)

/-- C1, witness: Zip under Gzip with the never-allow policy — the guard is
respected in the trace and the declined run succeeds with no directory
creation. -/
theorem nested_seek_terminal_guard_witness :
    guardedBefore isExtractionSideEffect
        (decompress_file envOk fmtZipNested .alwaysNo).events = true
    ∧ (decompress_file envOk fmtZipNested .alwaysNo).outcome = Outcome.ok
    ∧ Event.createDirAttempt ∉ (decompress_file envOk fmtZipNested .alwaysNo).events := by
  have h := nested_seek_terminal_guard envOk fmtZipNested .alwaysNo
    CompressionFormat.Zip [CompressionFormat.Gzip] (by decide) (Or.inl rfl) (by decide)
  have h2 := h.2 rfl rfl rfl [Event.chainWrap CompressionFormat.Gzip]
    (Decoder.wrap CompressionFormat.Gzip Decoder.file) (by decide)
  exact ⟨h.1, h2.1, h2.2.1⟩

/-- C2: a descriptor of exactly one Zip extension takes the seekable fast
path: the run never builds a decoder chain, never drains the input into an
in-memory buffer, and never prompts; when the output directory exists and
both the open and the random-access archive-handle construction succeed,
the zip extractor is invoked directly on the file handle. -/
theorem zip_alone_seekable_path (env : Env) (policy : QuestionPolicy) :
    (∀ f, Event.chainWrap f ∉ (decompress_file env zipOnlyExt policy).events)
    ∧ (∀ d, Event.bufferIntoMemory d ∉ (decompress_file env zipOnlyExt policy).events)
    ∧ Event.guardPrompt ∉ (decompress_file env zipOnlyExt policy).events
    ∧ Event.askCreateFile ∉ (decompress_file env zipOnlyExt policy).events
    ∧ (env.outputDirExists = true → env.openOk = true → env.zipNewDirectOk = true →
        Event.extract .zip .seekFile ∈ (decompress_file env zipOnlyExt policy).events) := by
  cases hood : env.outputDirExists with
  | false =>
    rw [decompress_file_no_dir env zipOnlyExt policy hood]
    simp [hood]
  | true =>
    cases hopen : env.openOk with
    | false =>
      rw [decompress_file_open_fail env zipOnlyExt policy hood hopen]
      simp [hopen]
    | true =>
      cases hzd : env.zipNewDirectOk with
      | false =>
        rw [decompress_file_zip_fast_new_fail env policy hood hopen hzd]
        simp [hzd]
      | true =>
        cases hzr : env.zipResult with
        | none =>
          rw [decompress_file_zip_fast_extract_fail env policy hood hopen hzd hzr]
          rcases dirLogEvent_cases env.createDirResult with hd | hd <;> rw [hd] <;> simp
        | some n =>
          rw [decompress_file_zip_fast_ok env policy n hood hopen hzd hzr]
          rcases dirLogEvent_cases env.createDirResult with hd | hd <;> rw [hd] <;> simp

/-- C2, witness: in the all-success environment a sole-Zip descriptor
invokes the seekable zip extractor and never prompts. -/
theorem zip_alone_seekable_path_witness :
    Event.extract .zip .seekFile ∈ (decompress_file envOk zipOnlyExt .ask).events
    ∧ Event.guardPrompt ∉ (decompress_file envOk zipOnlyExt .ask).events :=
  ⟨(zip_alone_seekable_path envOk .ask).2.2.2.2 rfl rfl rfl,
   (zip_alone_seekable_path envOk .ask).2.2.1⟩

theorem decompressArm_rar_not_mem (env : Env) (formats : List Extension)
    (p : QuestionPolicy) (reader : Decoder) (x : Event)
    (hx1 : x ≠ Event.tempFileCreate) (hx2 : ∀ d, x ≠ Event.spoolToTemp d)
    (hx3 : x ≠ Event.tempFileRemove) (hx4 : x ≠ Event.createDirAttempt)
    (hx5 : x ≠ Event.logDirCreated) (hx6 : x ≠ Event.logDirCreateFailed)
    (hx7 : ∀ s, x ≠ Event.extract .rar s) :
    x ∉ (decompressArm env formats p .Rar reader).1 := by
  have hu1 : x ∉ [Event.extract .rar .tempPath, Event.tempFileRemove] := by
    intro hm
    rcases List.mem_cons.mp hm with h | hm2
    · exact hx7 .tempPath h
    · rcases List.mem_cons.mp hm2 with h | hm3
      · exact hx3 h
      · simp at hm3
  have hu2 : x ∉ [Event.extract .rar .origPath] := by
    intro hm
    rcases List.mem_cons.mp hm with h | hm2
    · exact hx7 .origPath h
    · simp at hm2
  rw [decompressArm]
  split_ifs with h1 h2 h3 h4
  · show x ∉ Event.tempFileCreate :: Event.spoolToTemp reader ::
      (armOfSmart (smart_unpack env.outputDirExists env.createDirResult
        ([Event.extract .rar .tempPath, Event.tempFileRemove], env.rarResult) p)).1
    intro hm
    rcases List.mem_cons.mp hm with h | hm2
    · exact hx1 h
    · rcases List.mem_cons.mp hm2 with h | hm3
      · exact hx2 reader h
      · rw [armOfSmart_fst] at hm3
        exact not_mem_smart_unpack _ _ _ _ x hx4 hx5 hx6 hu1 hm3
  · intro hm
    rcases List.mem_cons.mp hm with h | hm2
    · exact hx1 h
    · rcases List.mem_cons.mp hm2 with h | hm3
      · exact hx2 reader h
      · rcases List.mem_cons.mp hm3 with h | hm4
        · exact hx3 h
        · simp at hm4
  · simp
  · rw [armOfSmart_fst]
    exact not_mem_smart_unpack _ _ _ _ x hx4 hx5 hx6 hu2
  · simp

theorem rar_run_not_mem (env : Env) (formats : List Extension)
    (p : QuestionPolicy) (rest : List CompressionFormat) (x : Event)
    (hsplit : split_first_compression_format formats
        = some (CompressionFormat.Rar, rest))
    (hx_open : x ≠ Event.openInput) (hx_wrap : ∀ f, x ≠ Event.chainWrap f)
    (hx_rep : ∀ n, x ≠ Event.reportFiles n)
    (hx_arm : ∀ reader, x ∉ (decompressArm env formats p .Rar reader).1) :
    x ∉ (decompress_file env formats p).events := by
  have hfz : formats ≠ zipOnlyExt :=
    formats_ne_zipOnly_of_split formats _ rest hsplit (by simp)
  cases hood : env.outputDirExists with
  | false =>
    rw [decompress_file_no_dir env formats p hood]
    simp
  | true =>
    cases hopen : env.openOk with
    | false =>
      rw [decompress_file_open_fail env formats p hood hopen]
      simp [hx_open]
    | true =>
      rcases hc : chainList env.zstdOk rest.reverse Decoder.file with ⟨cEvs, cr⟩
      have hwraps : ∀ e ∈ cEvs, ∃ f, e = Event.chainWrap f := by
        have h2 := chainList_events_wraps env.zstdOk rest.reverse Decoder.file
        rw [hc] at h2
        exact h2
      have hnotc : x ∉ cEvs := by
        intro hm
        obtain ⟨f, hf⟩ := hwraps x hm
        exact hx_wrap f hf
      cases cr with
      | err e =>
        rw [decompress_file_chain_err env formats p _ rest cEvs e
          hood hopen hfz hsplit hc]
        intro hm
        rcases List.mem_cons.mp hm with h | h
        · exact hx_open h
        · exact hnotc h
      | unreachableHit =>
        rw [decompress_file_chain_unreachable env formats p _ rest cEvs
          hood hopen hfz hsplit hc]
        intro hm
        rcases List.mem_cons.mp hm with h | h
        · exact hx_open h
        · exact hnotc h
      | ok reader =>
        rcases ha : decompressArm env formats p .Rar reader with ⟨aEvs, ar⟩
        have hnota : x ∉ aEvs := by
          have h2 := hx_arm reader
          rw [ha] at h2
          exact h2
        rw [decompress_file_general env formats p _ rest cEvs reader aEvs ar
          hood hopen hfz hsplit hc ha]
        cases ar with
        | early o =>
          exact not_mem_of_shape cEvs hwraps x hx_open hx_wrap aEvs hnota
        | files n =>
          have hl2 : x ∉ aEvs ++ [Event.reportFiles n] := by
            intro hm
            rcases List.mem_append.mp hm with h | h
            · exact hnota h
            · simp at h
              exact hx_rep n h
          have h2 := not_mem_of_shape cEvs hwraps x hx_open hx_wrap
            (aEvs ++ [Event.reportFiles n]) hl2
          show x ∉ Event.openInput :: cEvs ++ aEvs ++ [Event.reportFiles n]
          rw [List.append_assoc]
          exact h2

/-- C10: a Rar terminal nested under at least one more extension (with the
extractor compiled in) never consults the Interactive Guard and never
invokes the overwrite-confirmation collaborator, and the whole run is
independent of the confirmation policy; on the all-success prologue the run
drains the full decoded stream into the temporary file even though the
spooled size is input-controlled. -/
theorem nested_rar_spool_no_guard (env : Env) (formats : List Extension)
    (p1 p2 : QuestionPolicy) (rest : List CompressionFormat)
    (hsplit : split_first_compression_format formats
        = some (CompressionFormat.Rar, rest))
    (hlen : 1 < formats.length) (hunrar : env.unrarFeature = true) :
    Event.guardPrompt ∉ (decompress_file env formats p1).events
    ∧ Event.askCreateFile ∉ (decompress_file env formats p1).events
    ∧ decompress_file env formats p1 = decompress_file env formats p2
    ∧ (env.outputDirExists = true → env.openOk = true →
        env.tempNewOk = true → env.copyToTempOk = true →
        ∀ cEvs reader,
          chainList env.zstdOk rest.reverse Decoder.file
            = (cEvs, ChainRes.ok reader) →
          Event.spoolToTemp reader ∈ (decompress_file env formats p1).events) := by
  have hfz : formats ≠ zipOnlyExt :=
    formats_ne_zipOnly_of_split formats _ rest hsplit (by simp)
  refine ⟨?_, ?_, ?_, ?_⟩
  · exact rar_run_not_mem env formats p1 rest _ hsplit (by simp) (fun f => by simp)
      (fun n => by simp) (fun reader => decompressArm_rar_not_mem env formats p1 reader _
        (by simp) (fun d => by simp) (by simp) (by simp) (by simp) (by simp)
        (fun s => by simp))
  · exact rar_run_not_mem env formats p1 rest _ hsplit (by simp) (fun f => by simp)
      (fun n => by simp) (fun reader => decompressArm_rar_not_mem env formats p1 reader _
        (by simp) (fun d => by simp) (by simp) (by simp) (by simp) (by simp)
        (fun s => by simp))
  · cases hood : env.outputDirExists with
    | false =>
      rw [decompress_file_no_dir env formats p1 hood,
        decompress_file_no_dir env formats p2 hood]
    | true =>
      cases hopen : env.openOk with
      | false =>
        rw [decompress_file_open_fail env formats p1 hood hopen,
          decompress_file_open_fail env formats p2 hood hopen]
      | true =>
        rcases hc : chainList env.zstdOk rest.reverse Decoder.file with ⟨cEvs, cr⟩
        cases cr with
        | err e =>
          rw [decompress_file_chain_err env formats p1 _ rest cEvs e
            hood hopen hfz hsplit hc,
            decompress_file_chain_err env formats p2 _ rest cEvs e
            hood hopen hfz hsplit hc]
        | unreachableHit =>
          rw [decompress_file_chain_unreachable env formats p1 _ rest cEvs
            hood hopen hfz hsplit hc,
            decompress_file_chain_unreachable env formats p2 _ rest cEvs
            hood hopen hfz hsplit hc]
        | ok reader =>
          rcases ha1 : decompressArm env formats p1 .Rar reader with ⟨aEvs, ar⟩
          have ha2 : decompressArm env formats p2 .Rar reader = (aEvs, ar) :=
            (decompressArm_rar_policy env formats p2 p1 reader).trans ha1
          rw [decompress_file_general env formats p1 _ rest cEvs reader aEvs ar
            hood hopen hfz hsplit hc ha1,
            decompress_file_general env formats p2 _ rest cEvs reader aEvs ar
            hood hopen hfz hsplit hc ha2]
          cases ar <;> rfl
  · intro hood hopen ht hcp cEvs reader hc
    have ha := decompressArm_rar_nested env formats p1 reader hunrar hlen ht hcp
    cases hrr : env.rarResult with
    | none =>
      have hsm : smart_unpack env.outputDirExists env.createDirResult
          ([Event.extract .rar .tempPath, Event.tempFileRemove], env.rarResult) p1
          = (Event.createDirAttempt :: dirLogEvent env.createDirResult ::
              [Event.extract .rar .tempPath, Event.tempFileRemove],
             SOut.errExtract) := by
        rw [hood, hrr]
        simp [smart_unpack]
      have ha2 : decompressArm env formats p1 .Rar reader
          = (Event.tempFileCreate :: Event.spoolToTemp reader ::
              Event.createDirAttempt :: dirLogEvent env.createDirResult ::
              [Event.extract .rar .tempPath, Event.tempFileRemove],
             ArmRes.early (Outcome.err Err.extractor)) := by
        rw [ha, hsm]
        rfl
      rw [decompress_file_general env formats p1 _ rest cEvs reader _ _
        hood hopen hfz hsplit hc ha2]
      simp
    | some n =>
      have hsm : smart_unpack env.outputDirExists env.createDirResult
          ([Event.extract .rar .tempPath, Event.tempFileRemove], env.rarResult) p1
          = (Event.createDirAttempt :: dirLogEvent env.createDirResult ::
              [Event.extract .rar .tempPath, Event.tempFileRemove],
             SOut.continueWith n) := by
        rw [hood, hrr]
        simp [smart_unpack]
      have ha2 : decompressArm env formats p1 .Rar reader
          = (Event.tempFileCreate :: Event.spoolToTemp reader ::
              Event.createDirAttempt :: dirLogEvent env.createDirResult ::
              [Event.extract .rar .tempPath, Event.tempFileRemove],
             ArmRes.files n) := by
        rw [ha, hsm]
        rfl
      rw [decompress_file_general env formats p1 _ rest cEvs reader _ _
        hood hopen hfz hsplit hc ha2]
      simp

/-- C10, witness: Rar under Gzip, all-success environment — no guard prompt
in the trace and the spool of the full decoded chain occurs. -/
theorem nested_rar_spool_no_guard_witness :
    Event.guardPrompt ∉ (decompress_file envOk fmtRarNested .ask).events
    ∧ Event.spoolToTemp (Decoder.wrap CompressionFormat.Gzip Decoder.file)
        ∈ (decompress_file envOk fmtRarNested .ask).events := by
  have h := nested_rar_spool_no_guard envOk fmtRarNested .ask .alwaysNo
    [CompressionFormat.Gzip] (by decide) (by decide) rfl
  exact ⟨h.1, h.2.2.2 rfl rfl rfl rfl [Event.chainWrap CompressionFormat.Gzip]
    (Decoder.wrap CompressionFormat.Gzip Decoder.file) (by decide)⟩

/-- C4: with the unrar feature compiled in, a sole-Rar descriptor passes the
original input path to the extractor and never creates, writes or removes a
temporary file; a Rar terminal nested under more extensions spools the fully
decoded stream into a fresh temporary file, hands the temporary path — never
the original path — to the extractor, and the temporary file is removed
after the extractor call returns, on success and on failure alike (the run
is quantified over an arbitrary extractor result). -/
theorem rar_path_argument_and_temp_file (env : Env) (policy : QuestionPolicy)
    (hunrar : env.unrarFeature = true) :
    (Event.tempFileCreate ∉ (decompress_file env fmtRarOnly policy).events
     ∧ (∀ d, Event.spoolToTemp d ∉ (decompress_file env fmtRarOnly policy).events)
     ∧ Event.tempFileRemove ∉ (decompress_file env fmtRarOnly policy).events
     ∧ (env.outputDirExists = true → env.openOk = true →
         Event.extract .rar .origPath ∈ (decompress_file env fmtRarOnly policy).events))
    ∧ (∀ formats rest cEvs reader,
        split_first_compression_format formats
            = some (CompressionFormat.Rar, rest) →
        1 < formats.length →
        env.outputDirExists = true → env.openOk = true →
        env.tempNewOk = true → env.copyToTempOk = true →
        chainList env.zstdOk rest.reverse Decoder.file
            = (cEvs, ChainRes.ok reader) →
        ∃ pre post,
          (decompress_file env formats policy).events
              = pre ++ Event.extract .rar .tempPath :: post
          ∧ Event.spoolToTemp reader ∈ pre
          ∧ Event.tempFileRemove ∉ pre
          ∧ Event.tempFileRemove ∈ post
          ∧ Event.extract .rar .origPath
              ∉ (decompress_file env formats policy).events) := by
  constructor
  · have hsplit1 : split_first_compression_format fmtRarOnly
        = some (CompressionFormat.Rar, []) := rfl
    have harm : ∀ reader, decompressArm env fmtRarOnly policy .Rar reader
        = armOfSmart (smart_unpack env.outputDirExists env.createDirResult
            ([Event.extract .rar .origPath], env.rarResult) policy) :=
      fun reader => decompressArm_rar_alone env fmtRarOnly policy reader hunrar
        (by decide)
    have hnm : ∀ (x : Event), x ≠ Event.openInput →
        (∀ f, x ≠ Event.chainWrap f) → (∀ n, x ≠ Event.reportFiles n) →
        x ≠ Event.createDirAttempt → x ≠ Event.logDirCreated →
        x ≠ Event.logDirCreateFailed → x ≠ Event.extract .rar .origPath →
        x ∉ (decompress_file env fmtRarOnly policy).events := by
      intro x h1 h2 h3 h4 h5 h6 h7
      refine rar_run_not_mem env fmtRarOnly policy [] x hsplit1 h1 h2 h3 ?_
      intro reader
      rw [harm reader, armOfSmart_fst]
      refine not_mem_smart_unpack _ _ _ _ x h4 h5 h6 ?_
      intro hm
      rcases List.mem_cons.mp hm with h | h
      · exact h7 h
      · simp at h
    refine ⟨hnm _ (by simp) (fun f => by simp) (fun n => by simp) (by simp)
        (by simp) (by simp) (by simp),
      fun d => hnm _ (by simp) (fun f => by simp) (fun n => by simp) (by simp)
        (by simp) (by simp) (by simp),
      hnm _ (by simp) (fun f => by simp) (fun n => by simp) (by simp)
        (by simp) (by simp) (by simp), ?_⟩
    intro hood hopen
    have hfz : fmtRarOnly ≠ zipOnlyExt := by decide
    have hc : chainList env.zstdOk ([] : List CompressionFormat).reverse Decoder.file
        = ([], ChainRes.ok Decoder.file) := rfl
    cases hrr : env.rarResult with
    | none =>
      have hsm : smart_unpack env.outputDirExists env.createDirResult
          ([Event.extract .rar .origPath], env.rarResult) policy
          = (Event.createDirAttempt :: dirLogEvent env.createDirResult ::
              [Event.extract .rar .origPath], SOut.errExtract) := by
        rw [hood, hrr]
        simp [smart_unpack]
      have ha2 : decompressArm env fmtRarOnly policy .Rar Decoder.file
          = (Event.createDirAttempt :: dirLogEvent env.createDirResult ::
              [Event.extract .rar .origPath],
             ArmRes.early (Outcome.err Err.extractor)) := by
        rw [harm Decoder.file, hsm]
        rfl
      rw [decompress_file_general env fmtRarOnly policy _ [] [] Decoder.file _ _
        hood hopen hfz hsplit1 hc ha2]
      simp
    | some n =>
      have hsm : smart_unpack env.outputDirExists env.createDirResult
          ([Event.extract .rar .origPath], env.rarResult) policy
          = (Event.createDirAttempt :: dirLogEvent env.createDirResult ::
              [Event.extract .rar .origPath], SOut.continueWith n) := by
        rw [hood, hrr]
        simp [smart_unpack]
      have ha2 : decompressArm env fmtRarOnly policy .Rar Decoder.file
          = (Event.createDirAttempt :: dirLogEvent env.createDirResult ::
              [Event.extract .rar .origPath], ArmRes.files n) := by
        rw [harm Decoder.file, hsm]
        rfl
      rw [decompress_file_general env fmtRarOnly policy _ [] [] Decoder.file _ _
        hood hopen hfz hsplit1 hc ha2]
      simp
  · intro formats rest cEvs reader hsplit hlen hood hopen ht hcp hc
    have hfz : formats ≠ zipOnlyExt :=
      formats_ne_zipOnly_of_split formats _ rest hsplit (by simp)
    have hwraps : ∀ e ∈ cEvs, ∃ f, e = Event.chainWrap f := by
      have h2 := chainList_events_wraps env.zstdOk rest.reverse Decoder.file
      rw [hc] at h2
      exact h2
    have ha := decompressArm_rar_nested env formats policy reader hunrar hlen ht hcp
    have hpre : ∀ hd, dirLogEvent env.createDirResult = hd →
        Event.tempFileRemove ∉ Event.openInput :: cEvs ++
          [Event.tempFileCreate, Event.spoolToTemp reader,
           Event.createDirAttempt, hd] := by
      intro hd hhd hm
      rcases List.mem_cons.mp hm with h | h1
      · simp at h
      · rcases List.mem_append.mp h1 with h2 | h2
        · obtain ⟨f, hf⟩ := hwraps _ h2
          simp at hf
        · rcases dirLogEvent_cases env.createDirResult with hdc | hdc <;>
            rw [hdc] at hhd <;> subst hhd <;> simp at h2
    cases hrr : env.rarResult with
    | none =>
      have hsm : smart_unpack env.outputDirExists env.createDirResult
          ([Event.extract .rar .tempPath, Event.tempFileRemove], env.rarResult) policy
          = (Event.createDirAttempt :: dirLogEvent env.createDirResult ::
              [Event.extract .rar .tempPath, Event.tempFileRemove],
             SOut.errExtract) := by
        rw [hood, hrr]
        simp [smart_unpack]
      have ha2 : decompressArm env formats policy .Rar reader
          = (Event.tempFileCreate :: Event.spoolToTemp reader ::
              Event.createDirAttempt :: dirLogEvent env.createDirResult ::
              [Event.extract .rar .tempPath, Event.tempFileRemove],
             ArmRes.early (Outcome.err Err.extractor)) := by
        rw [ha, hsm]
        rfl
      rw [decompress_file_general env formats policy _ rest cEvs reader _ _
        hood hopen hfz hsplit hc ha2]
      refine ⟨Event.openInput :: cEvs ++
          [Event.tempFileCreate, Event.spoolToTemp reader,
           Event.createDirAttempt, dirLogEvent env.createDirResult],
        [Event.tempFileRemove], ?_, by simp, hpre _ rfl, by simp, ?_⟩
      · simp
      · intro hm
        have hm2 : Event.extract .rar .origPath ∈ Event.openInput :: cEvs ++
            (Event.tempFileCreate :: Event.spoolToTemp reader ::
              Event.createDirAttempt :: dirLogEvent env.createDirResult ::
              [Event.extract .rar .tempPath, Event.tempFileRemove]) := hm
        rcases List.mem_cons.mp hm2 with h | h1
        · simp at h
        · rcases List.mem_append.mp h1 with h2 | h2
          · obtain ⟨f, hf⟩ := hwraps _ h2
            simp at hf
          · rcases dirLogEvent_cases env.createDirResult with hdc | hdc <;>
              rw [hdc] at h2 <;> simp at h2
    | some n =>
      have hsm : smart_unpack env.outputDirExists env.createDirResult
          ([Event.extract .rar .tempPath, Event.tempFileRemove], env.rarResult) policy
          = (Event.createDirAttempt :: dirLogEvent env.createDirResult ::
              [Event.extract .rar .tempPath, Event.tempFileRemove],
             SOut.continueWith n) := by
        rw [hood, hrr]
        simp [smart_unpack]
      have ha2 : decompressArm env formats policy .Rar reader
          = (Event.tempFileCreate :: Event.spoolToTemp reader ::
              Event.createDirAttempt :: dirLogEvent env.createDirResult ::
              [Event.extract .rar .tempPath, Event.tempFileRemove],
             ArmRes.files n) := by
        rw [ha, hsm]
        rfl
      rw [decompress_file_general env formats policy _ rest cEvs reader _ _
        hood hopen hfz hsplit hc ha2]
      refine ⟨Event.openInput :: cEvs ++
          [Event.tempFileCreate, Event.spoolToTemp reader,
           Event.createDirAttempt, dirLogEvent env.createDirResult],
        [Event.tempFileRemove, Event.reportFiles n], ?_, by simp, hpre _ rfl,
        by simp, ?_⟩
      · simp
      · intro hm
        have hm2 : Event.extract .rar .origPath ∈ Event.openInput :: cEvs ++
            (Event.tempFileCreate :: Event.spoolToTemp reader ::
              Event.createDirAttempt :: dirLogEvent env.createDirResult ::
              [Event.extract .rar .tempPath, Event.tempFileRemove])
            ++ [Event.reportFiles n] := hm
        rcases List.mem_append.mp hm2 with h1 | h1
        · rcases List.mem_cons.mp h1 with h | h2
          · simp at h
          · rcases List.mem_append.mp h2 with h3 | h3
            · obtain ⟨f, hf⟩ := hwraps _ h3
              simp at hf
            · rcases dirLogEvent_cases env.createDirResult with hdc | hdc <;>
                rw [hdc] at h3 <;> simp at h3
        · simp at h1

/-- C4, witness: in the all-success environment, the sole-Rar descriptor
reaches the extractor with the original path and creates no temporary file,
while the Gzip-nested descriptor's trace removes the temporary file after
the extractor call. -/
theorem rar_path_argument_and_temp_file_witness :
    Event.extract .rar .origPath ∈ (decompress_file envOk fmtRarOnly .ask).events
    ∧ Event.tempFileCreate ∉ (decompress_file envOk fmtRarOnly .ask).events
    ∧ Event.tempFileRemove ∈ (decompress_file envOk fmtRarNested .ask).events := by
  have h := rar_path_argument_and_temp_file envOk .ask rfl
  obtain ⟨pre, post, heq, hspool, hnr, hinpost, hnorig⟩ :=
    h.2 fmtRarNested [CompressionFormat.Gzip]
      [Event.chainWrap CompressionFormat.Gzip]
      (Decoder.wrap CompressionFormat.Gzip Decoder.file)
      (by decide) (by decide) rfl rfl rfl rfl (by decide)
  refine ⟨h.1.2.2.2 rfl rfl, h.1.1, ?_⟩
  rw [heq]
  exact List.mem_append.mpr (Or.inr (List.mem_cons.mpr (Or.inr hinpost)))

/-- C6: for a descriptor made solely of layerable formats, decompress_file
copies the decoded byte stream of the full composed decoder chain to one
output file and reports exactly one file; if the overwrite-confirmation
collaborator declines the output file, the run ends successfully with no
write event; and the composed chain decodes by stripping the outermost
layer from the raw bytes first. -/
theorem layerable_only_single_file (env : Env) (formats : List Extension)
    (policy : QuestionPolicy) (first : CompressionFormat)
    (rest : List CompressionFormat)
    (hflat : flatten_compression_formats formats = first :: rest)
    (hlay : ∀ f ∈ first :: rest, f.isLayerable = true)
    (hood : env.outputDirExists = true) (hopen : env.openOk = true)
    (hz : env.zstdOk = true) :
    (env.createFileAnswer = some () → env.copyToOutOk = true →
      decompress_file env formats policy
        = { events := Event.openInput :: (rest.reverse.map Event.chainWrap)
              ++ [Event.chainWrap first, Event.askCreateFile,
                  Event.writeOutputFile
                    ((first :: rest).foldr Decoder.wrap Decoder.file),
                  Event.reportFiles 1],
            outcome := Outcome.ok })
    ∧ (env.createFileAnswer = none →
        (decompress_file env formats policy).outcome = Outcome.ok
        ∧ ∀ d, Event.writeOutputFile d ∉ (decompress_file env formats policy).events)
    ∧ ∀ (strip : CompressionFormat → List Nat → List Nat) (raw : List Nat),
        readDecoded strip ((first :: rest).foldr Decoder.wrap Decoder.file) raw
          = (first :: rest).foldr strip raw := by
  have hfirstl : first.isLayerable = true := hlay first (by simp)
  have hrestl : ∀ f ∈ rest, f.isLayerable = true := fun f hf => hlay f (by simp [hf])
  have hsplit := split_eq_of_flatten formats first rest hflat
  have hfz : formats ≠ zipOnlyExt := by
    apply formats_ne_zipOnly_of_split formats first rest hsplit
    intro h
    rw [h] at hfirstl
    simp [CompressionFormat.isLayerable] at hfirstl
  have hrev : ∀ f ∈ rest.reverse, f.isLayerable = true := fun f hf =>
    hrestl f (List.mem_reverse.mp hf)
  have hc : chainList env.zstdOk rest.reverse Decoder.file
      = (rest.reverse.map Event.chainWrap,
         ChainRes.ok (rest.foldr Decoder.wrap Decoder.file)) := by
    rw [hz, chainList_all_layerable rest.reverse Decoder.file hrev,
      List.foldl_reverse]
  refine ⟨?_, ?_, fun strip raw => readDecoded_foldr strip (first :: rest) raw⟩
  · intro hcf hco
    have ha2 : decompressArm env formats policy first
        (rest.foldr Decoder.wrap Decoder.file)
        = ([Event.chainWrap first, Event.askCreateFile,
            Event.writeOutputFile
              (Decoder.wrap first (rest.foldr Decoder.wrap Decoder.file))],
           ArmRes.files 1) := by
      rw [decompressArm_layerable env formats policy first _ hfirstl]
      exact singleFileArm_write env first _ hfirstl hz hcf hco
    rw [decompress_file_general env formats policy first rest _ _ _ _
      hood hopen hfz hsplit hc ha2]
    simp
  · intro hcf
    have ha2 : decompressArm env formats policy first
        (rest.foldr Decoder.wrap Decoder.file)
        = ([Event.chainWrap first, Event.askCreateFile], ArmRes.early .ok) := by
      rw [decompressArm_layerable env formats policy first _ hfirstl]
      exact singleFileArm_decline env first _ hfirstl hz hcf
    rw [decompress_file_general env formats policy first rest _ _ _ _
      hood hopen hfz hsplit hc ha2]
    refine ⟨rfl, ?_⟩
    intro d
    have hwraps : ∀ e ∈ rest.reverse.map Event.chainWrap,
        ∃ f, e = Event.chainWrap f := by
      intro e he
      obtain ⟨a, hel, rfl⟩ := List.mem_map.mp he
      exact ⟨a, rfl⟩
    exact not_mem_of_shape _ hwraps _ (by simp) (fun f => by simp) _ (by simp)

/-- C6, witness: Gzip layer inside a Zstd layer in the all-success
environment — one write of the fully composed chain and a report of exactly
one file. -/
theorem layerable_only_single_file_witness :
    decompress_file envOk fmtGzZstd .ask
      = { events := [Event.openInput, Event.chainWrap CompressionFormat.Zstd,
                     Event.chainWrap CompressionFormat.Gzip, Event.askCreateFile,
                     Event.writeOutputFile
                       (Decoder.wrap CompressionFormat.Gzip
                         (Decoder.wrap CompressionFormat.Zstd Decoder.file)),
                     Event.reportFiles 1],
          outcome := Outcome.ok } := by
  have h := layerable_only_single_file envOk fmtGzZstd .ask
    CompressionFormat.Gzip [CompressionFormat.Zstd] rfl (by decide) rfl rfl rfl
  have h2 := h.1 rfl rfl
  simpa using h2

/-- C7, counterexample: the claim requires every Rar-terminal input to fail
with the distinct unsupported-format error before any I/O when the
extractor is not compiled in.  With an unopenable input the run fails with
the I/O-open error instead; and even when the input opens, the input-file
open — an I/O action on the filesystem — precedes the distinct error, as
the trace shows. -/
theorem rar_not_compiled_io_counterexample :
    (decompress_file envNoRarNoOpen fmtRarOnly .ask).outcome = Outcome.err Err.ioOpen
    ∧ Outcome.err Err.ioOpen ≠ Outcome.err Err.rarNoSupport
    ∧ (decompress_file envNoRar fmtRarOnly .ask).events = [Event.openInput]
    ∧ (decompress_file envNoRar fmtRarOnly .ask).outcome
        = Outcome.err Err.rarNoSupport := by
  decide

/-- C7, amended: when the Rar extractor is not compiled in and the prologue
(open of the input, decoder-chain construction) succeeds, decompress_file
fails with the distinct unsupported-format error; the trace up to that
point is the input-file open and decoder constructions only — no filesystem
mutation, no buffering, no extraction, no prompt of either kind. -/
theorem rar_not_compiled_distinct_error (env : Env) (formats : List Extension)
    (policy : QuestionPolicy) (rest : List CompressionFormat)
    (hsplit : split_first_compression_format formats
        = some (CompressionFormat.Rar, rest))
    (hunrar : env.unrarFeature = false)
    (hood : env.outputDirExists = true) (hopen : env.openOk = true)
    (cEvs : List Event) (reader : Decoder)
    (hc : chainList env.zstdOk rest.reverse Decoder.file
        = (cEvs, ChainRes.ok reader)) :
    (decompress_file env formats policy).outcome = Outcome.err Err.rarNoSupport
    ∧ (decompress_file env formats policy).events = Event.openInput :: cEvs
    ∧ ∀ e ∈ (decompress_file env formats policy).events,
        isExtractionSideEffect e = false ∧ e ≠ Event.guardPrompt
          ∧ e ≠ Event.askCreateFile := by
  have hfz : formats ≠ zipOnlyExt :=
    formats_ne_zipOnly_of_split formats _ rest hsplit (by simp)
  have hwraps : ∀ e ∈ cEvs, ∃ f, e = Event.chainWrap f := by
    have h2 := chainList_events_wraps env.zstdOk rest.reverse Decoder.file
    rw [hc] at h2
    exact h2
  have ha := decompressArm_rar_no_support env formats policy reader hunrar
  rw [decompress_file_general env formats policy _ rest cEvs reader _ _
    hood hopen hfz hsplit hc ha]
  refine ⟨rfl, by simp, ?_⟩
  intro e he
  have he2 : e ∈ Event.openInput :: cEvs ++ ([] : List Event) := he
  rcases List.mem_cons.mp he2 with h1 | h1
  · subst h1
    exact ⟨rfl, by simp, by simp⟩
  · rcases List.mem_append.mp h1 with h2 | h2
    · obtain ⟨f, rfl⟩ := hwraps e h2
      exact ⟨rfl, by simp, by simp⟩
    · simp at h2

/-- C7, witness for the amended claim: sole-Rar descriptor, feature absent,
openable input — the run fails with the distinct error. -/
theorem rar_not_compiled_distinct_error_witness :
    (decompress_file envNoRar fmtRarOnly .alwaysYes).outcome
      = Outcome.err Err.rarNoSupport :=
  (rar_not_compiled_distinct_error envNoRar fmtRarOnly .alwaysYes []
    (by decide) rfl rfl rfl [] Decoder.file (by decide)).1

end OuchDecompress
